import Mathlib

/-!
Shallow embedding of the annotorious-plugin-tools repository: the ellipse
rubber-band drawing tool (an unnamed Svelte source file) and the polyline
`LineEditor.svelte` component.

Coordinates, sizes and timestamps are modelled as rationals (`ℚ`): the
JavaScript source computes with `+`, `-`, `*`, `/ 2`, `Math.abs`,
`Math.min`, `Math.max`, all of which are exact here. The one genuinely
floating-point operation, `Math.sqrt` (used only for midpoint visibility),
is abstracted as a function parameter `msqrt`.

Event handlers become pure state-transition functions: the component's
mutable `let` bindings are collected into explicit state records, and a
dispatched `create`/`change` event becomes an `Option` component of the
result. DOM events are reduced to the data the handlers read from them
(offset coordinates, modifier keys, timestamps).
-/

namespace AnnotoriousTools

/-- A 2D point, as the `[x, y]` pairs of the source. -/
abbrev Point := ℚ × ℚ

/-! ## Ellipse rubber-band tool (src/unnamed/part_000) -/

/-- Bounds record of an ellipse shape's geometry. -/
structure Bounds where
  minX : ℚ
  minY : ℚ
  maxX : ℚ
  maxY : ℚ
deriving DecidableEq

/-- Geometry of an ellipse shape, as built in `stopDrawing`. -/
structure EllipseGeometry where
  bounds : Bounds
  cx : ℚ
  cy : ℚ
  rx : ℚ
  ry : ℚ
deriving DecidableEq

/-- An ellipse shape (the `type: ShapeType.ELLIPSE` tag is implicit). -/
structure EllipseShape where
  geometry : EllipseGeometry
deriving DecidableEq

/-- The drawing-mode prop of the ellipse tool. -/
inductive DrawingMode where
  | click
  | drag
deriving DecidableEq

/-- The mutable component state of the ellipse tool: `origin`, `anchor`,
the current rectangle `x, y, w, h`, the modifier flags, the timestamp of
the last pointer-down and the last remembered move event (reduced to its
offset coordinates). -/
structure EllipseToolState where
  origin : Option Point
  anchor : Option Point
  x : ℚ
  y : ℚ
  w : ℚ
  h : ℚ
  isShiftPressed : Bool
  isCtrlPressed : Bool
  lastPointerDown : ℚ
  lastMoveEvent : Option Point
deriving DecidableEq

/-- Handler `onPointerDown` of the ellipse tool: records the timestamp
and, in `drag` mode, starts a drawing at the transformed event position. -/
def onPointerDown (now : ℚ) (evt : Point) (transform : Point → Point)
    (drawingMode : DrawingMode) (s : EllipseToolState) : EllipseToolState :=
  let s := { s with lastPointerDown := now }
  if drawingMode = DrawingMode.drag then
    let origin := transform evt
    { s with origin := some origin, anchor := some origin,
             x := origin.1, y := origin.2, w := 1, h := 1 }
  else s

/-- The rectangle `(x, y, w, h)` computed by the body of `updateShape` for
a drawing with the given `origin` and current `anchor`, following the
control/shift branch of the source. -/
def updateRect (origin anchor : Point) (isShiftPressed isCtrlPressed : Bool) :
    ℚ × ℚ × ℚ × ℚ :=
  if isCtrlPressed then
    let mw := 2 * |anchor.1 - origin.1|
    let mh := 2 * |anchor.2 - origin.2|
    let w := if isShiftPressed then max mw mh else mw
    let h := if isShiftPressed then w else mh
    (min anchor.1 (origin.1 - w / 2), min anchor.2 (origin.2 - h / 2), w, h)
  else
    let mw := |anchor.1 - origin.1|
    let mh := |anchor.2 - origin.2|
    let w := if isShiftPressed then max mw mh else mw
    let h := if isShiftPressed then w else mh
    (min anchor.1 origin.1, min anchor.2 origin.2, w, h)

/-- Handler `updateShape` of the ellipse tool. `maybeEvent` is the optional
pointer event (reduced to its offset coordinates); when absent the
remembered `lastMoveEvent` is used. The result is `none` exactly when the
source would dereference `undefined` (a drawing in progress but no event
available). `transform` models `transform.elementToImage`. -/
def updateShape (transform : Point → Point) (maybeEvent : Option Point)
    (s : EllipseToolState) : Option EllipseToolState :=
  let evt : Option Point :=
    match maybeEvent with
    | some e => some e
    | none => s.lastMoveEvent
  let s1 : Option EllipseToolState :=
    match s.origin with
    | none => some s
    | some origin =>
      match evt with
      | none => none
      | some e =>
        let anchor := transform e
        let r := updateRect origin anchor s.isShiftPressed s.isCtrlPressed
        some { s with
          anchor := some anchor,
          x := r.1, y := r.2.1, w := r.2.2.1, h := r.2.2.2 }
  s1.map fun st =>
    match maybeEvent with
    | some e => { st with lastMoveEvent := some e }
    | none => st

/-- The ellipse shape `stopDrawing` builds from the rectangle `x y w h`. -/
def ellipseFromRect (x y w h : ℚ) : EllipseShape :=
  { geometry := {
      bounds := { minX := x, minY := y, maxX := x + w, maxY := y + h },
      cx := x + w / 2, cy := y + h / 2, rx := w / 2, ry := h / 2 } }

/-- `stopDrawing` of the ellipse tool: dispatches a `create` event (the
`Option EllipseShape` component) when `w * h > 15`, and always resets
`origin`, `anchor` and `lastMoveEvent`. -/
def stopDrawing (s : EllipseToolState) : EllipseToolState × Option EllipseShape :=
  let created :=
    if s.w * s.h > 15 then some (ellipseFromRect s.x s.y s.w s.h) else none
  ({ s with origin := none, anchor := none, lastMoveEvent := none }, created)

/-- Handler `onPointerUp` of the ellipse tool. Returns the new state and
the optionally dispatched `create` event. -/
def onPointerUp (now : ℚ) (evt : Point) (transform : Point → Point)
    (drawingMode : DrawingMode) (s : EllipseToolState) :
    EllipseToolState × Option EllipseShape :=
  let timeDifference := now - s.lastPointerDown
  if drawingMode = DrawingMode.click then
    if timeDifference > 300 then (s, none)
    else
      match s.origin with
      | some _ => stopDrawing s
      | none =>
        let origin := transform evt
        ({ s with origin := some origin, anchor := some origin,
                  x := origin.1, y := origin.2, w := 1, h := 1 }, none)
  else
    match s.origin with
    | some _ =>
      if timeDifference > 300 ∨ s.w * s.h > 100 then stopDrawing s
      else ({ s with origin := none, anchor := none, lastMoveEvent := none }, none)
    | none => (s, none)

/-! ## Line editor (src/src/line/LineEditor.svelte) -/

/-- Time difference (milliseconds) required for registering a click/tap. -/
def CLICK_THRESHOLD : ℚ := 250

/-- Minimum distance (px) between corners required for midpoints to show. -/
def MIN_CORNER_DISTANCE : ℚ := 12

/-- A synthetic midpoint control between two adjacent polyline vertices. -/
structure Midpoint where
  point : Point
  visible : Bool
deriving DecidableEq

/-- Body of the `midpoints` reducer for one enumerated corner `p = (idx,
corner)` that is not the last: the midpoint of `corner` and the next
corner, with its visibility flag. `msqrt` abstracts `Math.sqrt`. -/
def midpointEntry (msqrt : ℚ → ℚ) (viewportScale : ℚ) (points : List Point)
    (p : ℕ × Point) : Midpoint :=
  let thisCorner := p.2
  let nextCorner := points.getD (p.1 + 1) (0, 0)
  let x := (thisCorner.1 + nextCorner.1) / 2
  let y := (thisCorner.2 + nextCorner.2) / 2
  let dist := msqrt ((nextCorner.1 - x) ^ 2 + (nextCorner.2 - y) ^ 2)
  { point := (x, y),
    visible := decide (MIN_CORNER_DISTANCE / viewportScale < dist) }

/-- The reactive `midpoints` computation of the line editor: empty on
touch devices, otherwise a reduce over the enumerated corner list that
skips the last corner and appends one midpoint per remaining corner. -/
def midpoints (msqrt : ℚ → ℚ) (isTouch : Bool) (viewportScale : ℚ)
    (points : List Point) : List Midpoint :=
  if isTouch then []
  else points.enum.foldl (fun acc p =>
    if p.1 == points.length - 1 then acc
    else acc ++ [midpointEntry msqrt viewportScale points p]) []

/-- Handler `onHandlePointerUp idx` of the line editor, as a function of
the current time, the remembered `lastHandleClick` timestamp, the device
kind, the modifier keys of the event and the current corner selection;
returns the new corner selection. The source's `!lastHandleClick` guard is
JavaScript falsiness: it fires when the timestamp is `undefined` (`none`)
or exactly `0`. -/
def onHandlePointerUp (idx : ℕ) (now : ℚ) (lastHandleClick : Option ℚ)
    (isTouch : Bool) (metaKey ctrlKey shiftKey : Bool)
    (selectedCorners : List ℕ) : List ℕ :=
  match lastHandleClick with
  | none => selectedCorners
  | some t =>
    if t = 0 ∨ isTouch = true then selectedCorners
    else if now - t > CLICK_THRESHOLD then selectedCorners
    else
      let isSelected := selectedCorners.contains idx
      if metaKey || ctrlKey || shiftKey then
        if isSelected then selectedCorners.filter (fun i => i != idx)
        else selectedCorners ++ [idx]
      else
        if isSelected && decide (selectedCorners.length > 1) then [idx]
        else if isSelected then []
        else [idx]

/-- The `editor` function of the line editor, restricted to the point
list it produces (its `bounds` are recomputed from these points by the
external `boundsFromPoints`). -/
def editor (selectedCorners : List ℕ) (points : List Point)
    (handle : String) (delta : Point) : List Point :=
  let dx := delta.1
  let dy := delta.2
  if selectedCorners.length > 1 then
    points.enum.map fun p =>
      if selectedCorners.contains p.1 then (p.2.1 + dx, p.2.2 + dy) else p.2
  else if handle = "LINE" then
    points.map fun q => (q.1 + dx, q.2 + dy)
  else
    points.enum.map fun p =>
      if handle = "HANDLE-" ++ toString p.1 then (p.2.1 + dx, p.2.2 + dy) else p.2

/-- Point list dispatched by `onAddPoint insertionIndex`: the original
points with `midpoints[insertionIndex].point` (or the explicit fallback
point) spliced in after position `insertionIndex`. The result is `none`
exactly when both the midpoint and the fallback are absent, where the
source would splice `undefined` into the array. -/
def onAddPoint (points : List Point) (midpts : List Midpoint)
    (insertionIndex : ℕ) (fallbackPoint : Option Point) : Option (List Point) :=
  let inserted : Option Point :=
    match midpts[insertionIndex]? with
    | some m => some m.point
    | none => fallbackPoint
  inserted.map fun p =>
    points.take (insertionIndex + 1) ++ [p] ++ points.drop (insertionIndex + 1)

/-- Handler `onDeleteSelected` of the line editor: returns the optionally
dispatched point list and the new corner selection. -/
def onDeleteSelected (points : List Point) (selectedCorners : List ℕ) :
    Option (List Point) × List ℕ :=
  if points.length - selectedCorners.length < 2 then (none, selectedCorners)
  else
    let newPoints :=
      (points.enum.filter fun p => !(selectedCorners.contains p.1)).map Prod.snd
    (some newPoints, [])

/-! ## Helper lemmas -/

/-- A rectangle of width `w` whose left edge is `min a (o - w / 2)` is
centered on `o` as soon as `w` is at least twice the distance from `a`
to `o`. -/
theorem min_center (a o w : ℚ) (h : 2 * |a - o| ≤ w) :
    min a (o - w / 2) + w / 2 = o := by
  have h1 : |a - o| ≤ w / 2 := by linarith
  have h2 : o - w / 2 ≤ a := by
    have := abs_le.mp h1
    linarith [this.1]
  rw [min_eq_right h2]
  ring

/-- Characterization of `updateShape` while a drawing is in progress: the
new anchor is the transformed event position and the rectangle is
`updateRect` of origin and anchor. -/
theorem updateShape_some_origin (transform : Point → Point)
    (maybeEvent : Option Point) (s s2 : EllipseToolState) (o : Point)
    (ho : s.origin = some o)
    (h : updateShape transform maybeEvent s = some s2) :
    ∃ a : Point, s2.anchor = some a ∧
      s2.x = (updateRect o a s.isShiftPressed s.isCtrlPressed).1 ∧
      s2.y = (updateRect o a s.isShiftPressed s.isCtrlPressed).2.1 ∧
      s2.w = (updateRect o a s.isShiftPressed s.isCtrlPressed).2.2.1 ∧
      s2.h = (updateRect o a s.isShiftPressed s.isCtrlPressed).2.2.2 := by
  cases maybeEvent with
  | some e =>
    simp only [updateShape, ho, Option.map, Option.some.injEq] at h
    subst h
    exact ⟨transform e, rfl, rfl, rfl, rfl, rfl⟩
  | none =>
    cases hlme : s.lastMoveEvent with
    | none => simp [updateShape, ho, hlme] at h
    | some e =>
      simp only [updateShape, ho, hlme, Option.map, Option.some.injEq] at h
      subst h
      exact ⟨transform e, rfl, rfl, rfl, rfl, rfl⟩

/-- With Control held, the rectangle computed by `updateRect` is centered
on the origin, whatever the Shift flag. -/
theorem updateRect_ctrl_centered (o a : Point) (shift : Bool) :
    (updateRect o a shift true).1 + (updateRect o a shift true).2.2.1 / 2 = o.1 ∧
    (updateRect o a shift true).2.1 + (updateRect o a shift true).2.2.2 / 2 = o.2 := by
  cases shift <;> simp only [updateRect, if_true, Bool.false_eq_true, if_false]
  · exact ⟨min_center _ _ _ le_rfl, min_center _ _ _ le_rfl⟩
  · exact ⟨min_center _ _ _ (le_max_left _ _), min_center _ _ _ (le_max_right _ _)⟩

/-- C1: In the ellipse rubber-band tool, for every `updateShape` call while
a drawing is in progress (origin is defined) and the Control key is held,
the resulting rectangle is centered on the origin point: `x + w/2` equals
the origin's x and `y + h/2` equals the origin's y, for every anchor
position and regardless of whether Shift is also held. -/
theorem ellipse_updateShape_ctrl_centered (transform : Point → Point)
    (maybeEvent : Option Point) (s s2 : EllipseToolState) (o : Point)
    (ho : s.origin = some o) (hc : s.isCtrlPressed = true)
    (h : updateShape transform maybeEvent s = some s2) :
    s2.x + s2.w / 2 = o.1 ∧ s2.y + s2.h / 2 = o.2 := by
  obtain ⟨a, -, hx, hy, hw, hh⟩ :=
    updateShape_some_origin transform maybeEvent s s2 o ho h
  rw [hx, hy, hw, hh, hc]
  exact updateRect_ctrl_centered o a s.isShiftPressed

/-- Witness for C1 at a concrete input: origin `(10, 20)`, cursor
`(13, 24)`, Control held, Shift released. -/
theorem ellipse_updateShape_ctrl_centered_witness :
    (7 : ℚ) + 6 / 2 = 10 ∧ (16 : ℚ) + 8 / 2 = 20 :=
  ellipse_updateShape_ctrl_centered id (some (13, 24))
    ⟨some (10, 20), none, 0, 0, 1, 1, false, true, 0, none⟩
    ⟨some (10, 20), some (13, 24), 7, 16, 6, 8, false, true, 0, some (13, 24)⟩
    (10, 20) rfl rfl (by norm_num [updateShape, updateRect])

/-- With Shift held, `updateRect` produces a square whose side is the
larger axis extent, doubled when Control is also held. -/
theorem updateRect_shift_square (o a : Point) (ctrl : Bool) :
    (updateRect o a true ctrl).2.2.1 = (updateRect o a true ctrl).2.2.2 ∧
    (updateRect o a true ctrl).2.2.1 =
      (if ctrl then max (2 * |a.1 - o.1|) (2 * |a.2 - o.2|)
       else max |a.1 - o.1| |a.2 - o.2|) := by
  cases ctrl <;> simp [updateRect]

/-- C2: In the ellipse rubber-band tool, for every `updateShape` call while
a drawing is in progress and the Shift key is held, the resulting rectangle
is square: `w = h`, and both equal the larger of the two axis extents
(`|anchor.x - origin.x|` and `|anchor.y - origin.y|`, each doubled when
Control is also held), so the ellipse created from this rectangle has
`rx = ry`. -/
theorem ellipse_updateShape_shift_square (transform : Point → Point)
    (maybeEvent : Option Point) (s s2 : EllipseToolState) (o : Point)
    (ho : s.origin = some o) (hs : s.isShiftPressed = true)
    (h : updateShape transform maybeEvent s = some s2) :
    ∃ a : Point, s2.anchor = some a ∧
      s2.w = s2.h ∧
      s2.w = (if s.isCtrlPressed then max (2 * |a.1 - o.1|) (2 * |a.2 - o.2|)
              else max |a.1 - o.1| |a.2 - o.2|) ∧
      (ellipseFromRect s2.x s2.y s2.w s2.h).geometry.rx
        = (ellipseFromRect s2.x s2.y s2.w s2.h).geometry.ry := by
  obtain ⟨a, ha, -, -, hw, hh⟩ :=
    updateShape_some_origin transform maybeEvent s s2 o ho h
  rw [hs] at hw hh
  obtain ⟨hsq, hval⟩ := updateRect_shift_square o a s.isCtrlPressed
  have hwh : s2.w = s2.h := by rw [hw, hh]; exact hsq
  refine ⟨a, ha, hwh, by rw [hw]; exact hval, ?_⟩
  simp only [ellipseFromRect]
  rw [hwh]

/-- Witness for C2 at a concrete input: origin `(10, 20)`, cursor
`(13, 24)`, Shift and Control both held. -/
theorem ellipse_updateShape_shift_square_witness :
    ∃ a : Point,
      (⟨some (10, 20), some (13, 24), 6, 16, 8, 8, true, true, 0,
        some (13, 24)⟩ : EllipseToolState).anchor = some a ∧
      (8 : ℚ) = 8 ∧
      (8 : ℚ) = (if true then max (2 * |a.1 - 10|) (2 * |a.2 - 20|)
                 else max |a.1 - 10| |a.2 - 20|) ∧
      (ellipseFromRect 6 16 8 8).geometry.rx
        = (ellipseFromRect 6 16 8 8).geometry.ry :=
  ellipse_updateShape_shift_square id (some (13, 24))
    ⟨some (10, 20), none, 0, 0, 1, 1, true, true, 0, none⟩
    ⟨some (10, 20), some (13, 24), 6, 16, 8, 8, true, true, 0, some (13, 24)⟩
    (10, 20) rfl rfl (by norm_num [updateShape, updateRect])

/-- C3: In the ellipse rubber-band tool, for every `updateShape` call while
a drawing is in progress and neither Shift nor Control is held, the
rectangle `(x, y, w, h)` is exactly the axis-aligned bounding box spanned
by the origin and the current cursor (anchor) position. -/
theorem ellipse_updateShape_plain_bbox (transform : Point → Point)
    (maybeEvent : Option Point) (s s2 : EllipseToolState) (o : Point)
    (ho : s.origin = some o) (hs : s.isShiftPressed = false)
    (hc : s.isCtrlPressed = false)
    (h : updateShape transform maybeEvent s = some s2) :
    ∃ a : Point, s2.anchor = some a ∧
      s2.x = min o.1 a.1 ∧ s2.y = min o.2 a.2 ∧
      s2.w = |a.1 - o.1| ∧ s2.h = |a.2 - o.2| := by
  obtain ⟨a, ha, hx, hy, hw, hh⟩ :=
    updateShape_some_origin transform maybeEvent s s2 o ho h
  rw [hs, hc] at hx hy hw hh
  refine ⟨a, ha, ?_, ?_, ?_, ?_⟩ <;>
    simp only [updateRect, Bool.false_eq_true, if_false] at hx hy hw hh <;>
    first
      | (rw [hx]; exact min_comm _ _)
      | (rw [hy]; exact min_comm _ _)
      | exact hw
      | exact hh

/-- Witness for C3 at a concrete input: origin `(10, 20)`, cursor
`(13, 24)`, no modifier keys. -/
theorem ellipse_updateShape_plain_bbox_witness :
    ∃ a : Point,
      (⟨some (10, 20), some (13, 24), 10, 20, 3, 4, false, false, 0,
        some (13, 24)⟩ : EllipseToolState).anchor = some a ∧
      (10 : ℚ) = min 10 a.1 ∧ (20 : ℚ) = min 20 a.2 ∧
      (3 : ℚ) = |a.1 - 10| ∧ (4 : ℚ) = |a.2 - 20| :=
  ellipse_updateShape_plain_bbox id (some (13, 24))
    ⟨some (10, 20), none, 0, 0, 1, 1, false, false, 0, none⟩
    ⟨some (10, 20), some (13, 24), 10, 20, 3, 4, false, false, 0, some (13, 24)⟩
    (10, 20) rfl rfl rfl (by norm_num [updateShape, updateRect])

/-- C7: In the ellipse tool in `click` drawing mode, a pointer-up occurring
more than 300 milliseconds after the last pointer-down is ignored: no
`create` event is dispatched and the drawing state (origin, anchor, x, y,
w, h) is left unchanged. -/
theorem ellipse_onPointerUp_click_late_ignored (now : ℚ) (evt : Point)
    (transform : Point → Point) (s : EllipseToolState)
    (h : now - s.lastPointerDown > 300) :
    onPointerUp now evt transform DrawingMode.click s = (s, none) := by
  simp [onPointerUp, h]

/-- Witness for C7 at a concrete input: pointer-down at 100 ms, pointer-up
at 500 ms, with a drawing in progress. -/
theorem ellipse_onPointerUp_click_late_ignored_witness :
    onPointerUp 500 (3, 4) id DrawingMode.click
      ⟨some (1, 1), some (2, 2), 1, 1, 5, 5, false, false, 100, some (2, 2)⟩
    = (⟨some (1, 1), some (2, 2), 1, 1, 5, 5, false, false, 100, some (2, 2)⟩,
       none) :=
  ellipse_onPointerUp_click_late_ignored 500 (3, 4) id
    ⟨some (1, 1), some (2, 2), 1, 1, 5, 5, false, false, 100, some (2, 2)⟩
    (by norm_num)

/-- C10: In the ellipse tool, `stopDrawing` dispatches a `create` event if
and only if `w * h > 15`; the created geometry has `cx = x + w/2`,
`cy = y + h/2`, `rx = w/2`, `ry = h/2` and bounds `(x, y, x + w, y + h)`;
and in every case it resets `origin`, `anchor` and `lastMoveEvent` to
`undefined` (while the rectangle fields stay as they were). -/
theorem ellipse_stopDrawing_spec (s : EllipseToolState) :
    (stopDrawing s).2
      = (if s.w * s.h > 15 then
          some { geometry := {
            bounds := { minX := s.x, minY := s.y,
                        maxX := s.x + s.w, maxY := s.y + s.h },
            cx := s.x + s.w / 2, cy := s.y + s.h / 2,
            rx := s.w / 2, ry := s.h / 2 } }
        else none) ∧
    (stopDrawing s).1.origin = none ∧
    (stopDrawing s).1.anchor = none ∧
    (stopDrawing s).1.lastMoveEvent = none ∧
    (stopDrawing s).1.x = s.x ∧ (stopDrawing s).1.y = s.y ∧
    (stopDrawing s).1.w = s.w ∧ (stopDrawing s).1.h = s.h := by
  exact ⟨rfl, rfl, rfl, rfl, rfl, rfl, rfl, rfl⟩

/-- C6: In the line editor, a pointer-up on a corner handle changes the
corner selection only if it occurs at most `CLICK_THRESHOLD = 250`
milliseconds after the preceding handle pointer-down; if more time has
elapsed, the event is treated as a drag and the selection is left
unchanged. -/
theorem line_onHandlePointerUp_drag_ignored (idx : ℕ) (now t : ℚ)
    (isTouch metaKey ctrlKey shiftKey : Bool) (selectedCorners : List ℕ)
    (h : now - t > CLICK_THRESHOLD) :
    onHandlePointerUp idx now (some t) isTouch metaKey ctrlKey shiftKey
      selectedCorners = selectedCorners := by
  simp [onHandlePointerUp, h]

/-- Witness for C6 at a concrete input: pointer-down at 100 ms, pointer-up
at 400 ms, 300 ms apart, which exceeds the 250 ms threshold. -/
theorem line_onHandlePointerUp_drag_ignored_witness :
    onHandlePointerUp 1 400 (some 100) false false false false [0] = [0] :=
  line_onHandlePointerUp_drag_ignored 1 400 100 false false false false [0]
    (by norm_num [CLICK_THRESHOLD])

/-- C8: In the line editor, whenever more than one corner is selected, the
`editor` function translates exactly the points whose indices are in the
selection by the drag delta `(dx, dy)` and leaves every non-selected point
unchanged, whatever handle identifier is passed; the number of points is
preserved. -/
theorem line_editor_multiselect (selectedCorners : List ℕ)
    (points : List Point) (handle : String) (dx dy : ℚ)
    (hsel : 1 < selectedCorners.length) :
    (editor selectedCorners points handle (dx, dy)).length = points.length ∧
    ∀ i, i < points.length →
      (editor selectedCorners points handle (dx, dy))[i]?
        = some (if i ∈ selectedCorners
            then ((points.getD i (0, 0)).1 + dx, (points.getD i (0, 0)).2 + dy)
            else points.getD i (0, 0)) := by
  have hbranch : editor selectedCorners points handle (dx, dy)
      = points.enum.map (fun p =>
          if selectedCorners.contains p.1 then (p.2.1 + dx, p.2.2 + dy)
          else p.2) := by
    simp [editor, hsel]
  rw [hbranch]
  refine ⟨by simp, fun i hi => ?_⟩
  rw [List.getElem?_map, List.getElem?_enum,
    List.getElem?_eq_getElem hi]
  simp only [Option.map_some, List.contains, List.elem_eq_mem,
    List.getD_eq_getElem?_getD, List.getElem?_eq_getElem hi, Option.getD_some]
  by_cases hmem : i ∈ selectedCorners <;> simp [hmem]

/-- Witness for C8 at a concrete input: selection `{0, 2}` of a 3-point
line, dragged by `(10, 20)` via the handle of corner 1. -/
theorem line_editor_multiselect_witness :
    (editor [0, 2] [(0, 0), (1, 1), (2, 2)] "HANDLE-1" (10, 20)).length = 3 ∧
    ∀ i, i < 3 →
      (editor [0, 2] [(0, 0), (1, 1), (2, 2)] "HANDLE-1" (10, 20))[i]?
        = some (if i ∈ [0, 2]
            then (([(0, 0), (1, 1), (2, 2)].getD i ((0 : ℚ), (0 : ℚ))).1 + 10,
                  ([(0, 0), (1, 1), (2, 2)].getD i ((0 : ℚ), (0 : ℚ))).2 + 20)
            else [(0, 0), (1, 1), (2, 2)].getD i ((0 : ℚ), (0 : ℚ))) :=
  line_editor_multiselect [0, 2] [(0, 0), (1, 1), (2, 2)] "HANDLE-1" 10 20
    (by norm_num)

/-- C5: In the line editor, for every valid insertion index with a defined
midpoint, `onAddPoint` dispatches a point list equal to the original one
with the midpoint's point inserted at position `insertionIndex + 1`: every
original point is preserved in order and the length grows by exactly
one. -/
theorem line_onAddPoint_inserts (points : List Point) (midpts : List Midpoint)
    (insertionIndex : ℕ) (fallbackPoint : Option Point) (m : Midpoint)
    (hm : midpts[insertionIndex]? = some m)
    (hi : insertionIndex + 1 ≤ points.length) :
    ∃ l, onAddPoint points midpts insertionIndex fallbackPoint = some l ∧
      l.length = points.length + 1 ∧
      l[insertionIndex + 1]? = some m.point ∧
      (∀ j, j ≤ insertionIndex → l[j]? = points[j]?) ∧
      (∀ j, insertionIndex + 1 ≤ j → l[j + 1]? = points[j]?) := by
  set k := insertionIndex + 1 with hk
  have hlen_take : (points.take k).length = k := by
    rw [List.length_take]
    omega
  refine ⟨points.take k ++ [m.point] ++ points.drop k, ?_, ?_, ?_, ?_, ?_⟩
  · simp [onAddPoint, hm]
  · simp only [List.length_append, List.length_take, List.length_drop,
      List.length_cons, List.length_nil]
    omega
  · have h1 : k < (points.take k ++ [m.point]).length := by
      simp [hlen_take]
    rw [List.getElem?_append_left h1, List.getElem?_append_right hlen_take.le]
    simp [hlen_take]
  · intro j hj
    have h1 : j < (points.take k ++ [m.point]).length := by
      simp only [List.length_append, hlen_take, List.length_cons, List.length_nil]
      omega
    rw [List.getElem?_append_left h1,
      List.getElem?_append_left (by omega : j < (points.take k).length),
      List.getElem?_take_of_lt (by omega : j < k)]
  · intro j hj
    have h1 : (points.take k ++ [m.point]).length ≤ j + 1 := by
      simp only [List.length_append, hlen_take, List.length_cons, List.length_nil]
      omega
    rw [List.getElem?_append_right h1, List.getElem?_drop]
    have : k + (j + 1 - (points.take k ++ [m.point]).length) = j := by
      simp only [List.length_append, hlen_take, List.length_cons, List.length_nil]
      omega
    rw [this]

/-- Witness for C5 at a concrete input: the first midpoint of a 3-point
polyline. -/
theorem line_onAddPoint_inserts_witness :
    ∃ l, onAddPoint [(0, 0), (2, 0), (4, 6)]
        [⟨(1, 0), true⟩, ⟨(3, 3), true⟩] 0 none = some l ∧
      l.length = 3 + 1 ∧
      l[0 + 1]? = some (Midpoint.point ⟨(1, 0), true⟩) ∧
      (∀ j, j ≤ 0 → l[j]? = [((0 : ℚ), (0 : ℚ)), (2, 0), (4, 6)][j]?) ∧
      (∀ j, 0 + 1 ≤ j → l[j + 1]? = [((0 : ℚ), (0 : ℚ)), (2, 0), (4, 6)][j]?) :=
  line_onAddPoint_inserts [(0, 0), (2, 0), (4, 6)]
    [⟨(1, 0), true⟩, ⟨(3, 3), true⟩] 0 none ⟨(1, 0), true⟩ rfl (by norm_num)

/-- Counting with a predicate and with its Boolean negation partitions a
list. -/
theorem countP_not_add_countP {α : Type} (p : α → Bool) (l : List α) :
    l.countP (fun a => !(p a)) + l.countP p = l.length := by
  induction l with
  | nil => rfl
  | cons a t ih =>
    by_cases h : p a = true <;> simp [List.countP_cons, h, ← ih] <;> omega

/-- Counting the members of a duplicate-free list of indices, all below
`n`, over `range n` gives the list's length. -/
theorem countP_range_contains (sel : List ℕ) (n : ℕ) (hnd : sel.Nodup)
    (hb : ∀ i ∈ sel, i < n) :
    (List.range n).countP (fun i => sel.contains i) = sel.length := by
  rw [List.countP_eq_length_filter]
  have hperm : List.Perm ((List.range n).filter fun i => sel.contains i) sel := by
    apply List.perm_of_nodup_nodup_toFinset_eq
      ((List.nodup_range n).filter _) hnd
    ext a
    simp only [List.mem_toFinset, List.mem_filter, List.mem_range,
      List.contains, List.elem_eq_mem, decide_eq_true_eq]
    exact ⟨fun h => h.2, fun h => ⟨hb a h, h⟩⟩
  exact hperm.length_eq

/-- C9: In the line editor, `onDeleteSelected` dispatches a `change` event
only when at least 2 points would remain after removing the selected
corners; when fewer than 2 would remain, no event is dispatched and the
shape and selection are unchanged. Consequently every dispatched line
geometry has at least 2 points. Stated under the component's invariant
that the corner selection is duplicate-free and within bounds. -/
theorem line_onDeleteSelected_min_two (points : List Point) (sel : List ℕ)
    (hnd : sel.Nodup) (hb : ∀ i ∈ sel, i < points.length) :
    (points.length - sel.length < 2 →
      onDeleteSelected points sel = (none, sel)) ∧
    (2 ≤ points.length - sel.length →
      ∃ l, onDeleteSelected points sel = (some l, []) ∧
        l.length = points.length - sel.length ∧ 2 ≤ l.length) := by
  have hkept : ((points.enum.filter fun p => !(sel.contains p.1)).map
      Prod.snd).length = points.length - sel.length := by
    rw [List.length_map, ← List.countP_eq_length_filter]
    have hmap : points.enum.countP (fun p => !(sel.contains p.1))
        = (points.enum.map Prod.fst).countP (fun i => !(sel.contains i)) :=
      (List.countP_map (fun i => !(sel.contains i)) Prod.fst points.enum).symm
    rw [hmap, List.enum_eq_enumFrom, List.enumFrom_map_fst,
      ← List.range_eq_range']
    have htot := countP_not_add_countP (fun i => sel.contains i)
      (List.range points.length)
    rw [List.length_range] at htot
    rw [countP_range_contains sel points.length hnd hb] at htot
    omega
  constructor
  · intro hlt
    simp [onDeleteSelected, hlt]
  · intro hge
    refine ⟨(points.enum.filter fun p => !(sel.contains p.1)).map Prod.snd,
      ?_, hkept, hkept ▸ hge⟩
    simp only [onDeleteSelected, if_neg (by omega : ¬ points.length - sel.length < 2)]

/-- Witness for C9 at a concrete input: deleting corner 1 of a 3-point
line dispatches a 2-point line; deleting corners 1 and 2 is refused. -/
theorem line_onDeleteSelected_min_two_witness :
    ((3 : ℕ) - 1 < 2 →
      onDeleteSelected [((0 : ℚ), (0 : ℚ)), (1, 1), (2, 2)] [1]
        = (none, [1])) ∧
    (2 ≤ (3 : ℕ) - 1 →
      ∃ l, onDeleteSelected [((0 : ℚ), (0 : ℚ)), (1, 1), (2, 2)] [1]
          = (some l, []) ∧ l.length = 3 - 1 ∧ 2 ≤ l.length) :=
  line_onDeleteSelected_min_two [(0, 0), (1, 1), (2, 2)] [1]
    (by simp) (by simp)

/-- Folding an append-or-skip body over a list collects the images of the
entries the predicate does not skip. -/
theorem foldl_if_append {α β : Type} (P : α → Bool) (g : α → β) :
    ∀ (l : List α) (init : List β),
      l.foldl (fun acc p => if P p then acc else acc ++ [g p]) init
        = init ++ (l.filter fun p => !(P p)).map g
  | [], init => by simp
  | a :: t, init => by
    simp only [List.foldl_cons]
    by_cases h : P a = true
    · simp [h, foldl_if_append P g t init]
    · have hb : P a = false := by simpa using h
      simp [hb, foldl_if_append P g t (init ++ [g a])]

/-- Filtering the last index out of an enumeration of a list enumerates
the list without its last entry. -/
theorem enumFrom_filter_ne_last {α : Type} :
    ∀ (l : List α) (n k : ℕ), n + l.length = k + 1 →
      (l.enumFrom n).filter (fun p => !(p.1 == k)) = l.dropLast.enumFrom n
  | [], _, _, _ => by simp
  | a :: t, n, k, h => by
    cases t with
    | nil =>
      have : n = k := by simp at h; omega
      subst this
      simp
    | cons b t2 =>
      have hne : (n == k) = false := by
        simp only [List.length_cons] at h
        simp only [beq_eq_false_iff_ne, ne_eq]
        omega
      have ih := enumFrom_filter_ne_last (b :: t2) (n + 1) k
        (by simp only [List.length_cons] at h ⊢; omega)
      rw [List.enumFrom_cons, List.filter_cons_of_pos (by simp [hne]),
        ih, List.dropLast_cons₂, List.enumFrom_cons]

/-- On a non-touch device, `midpoints` maps `midpointEntry` over the
enumeration of every corner but the last. -/
theorem midpoints_eq_map (msqrt : ℚ → ℚ) (viewportScale : ℚ)
    (points : List Point) (hn : 1 ≤ points.length) :
    midpoints msqrt false viewportScale points
      = points.dropLast.enum.map (midpointEntry msqrt viewportScale points) := by
  unfold midpoints
  rw [if_neg (by simp)]
  rw [foldl_if_append (fun p => p.1 == points.length - 1)
      (midpointEntry msqrt viewportScale points) points.enum []]
  rw [List.enum_eq_enumFrom,
    enumFrom_filter_ne_last points 0 (points.length - 1) (by omega)]
  simp [List.enum_eq_enumFrom]

/-- C4: In the line editor, for every polyline geometry with `n ≥ 2` points
(on a non-touch device), the midpoints list has exactly `n - 1` entries,
and entry `i` lies at the arithmetic mean of adjacent vertices `i` and
`i + 1`. -/
theorem line_midpoints_means (msqrt : ℚ → ℚ) (viewportScale : ℚ)
    (points : List Point) (hn : 2 ≤ points.length) :
    (midpoints msqrt false viewportScale points).length = points.length - 1 ∧
    ∀ i, i < points.length - 1 →
      (midpoints msqrt false viewportScale points)[i]?.map Midpoint.point
        = some (((points.getD i (0, 0)).1 + (points.getD (i + 1) (0, 0)).1) / 2,
                ((points.getD i (0, 0)).2 + (points.getD (i + 1) (0, 0)).2) / 2) := by
  rw [midpoints_eq_map msqrt viewportScale points (by omega)]
  constructor
  · simp
  · intro i hi
    rw [List.getElem?_map, List.enum_eq_enumFrom, List.getElem?_enumFrom,
      List.getElem?_dropLast, if_pos hi,
      List.getElem?_eq_getElem (by omega : i < points.length)]
    simp only [Option.map_some', Nat.zero_add]
    simp only [midpointEntry, List.getD_eq_getElem?_getD,
      List.getElem?_eq_getElem (by omega : i + 1 < points.length),
      List.getElem?_eq_getElem (by omega : i < points.length),
      Option.getD_some]

/-- Witness for C4 at a concrete input: a 3-point polyline. -/
theorem line_midpoints_means_witness :
    (midpoints id false 1 [(0, 0), (2, 0), (4, 6)]).length = 3 - 1 ∧
    ∀ i, i < 3 - 1 →
      (midpoints id false 1 [(0, 0), (2, 0), (4, 6)])[i]?.map Midpoint.point
        = some ((([((0 : ℚ), (0 : ℚ)), (2, 0), (4, 6)].getD i (0, 0)).1 +
                  ([((0 : ℚ), (0 : ℚ)), (2, 0), (4, 6)].getD (i + 1) (0, 0)).1) / 2,
                (([((0 : ℚ), (0 : ℚ)), (2, 0), (4, 6)].getD i (0, 0)).2 +
                  ([((0 : ℚ), (0 : ℚ)), (2, 0), (4, 6)].getD (i + 1) (0, 0)).2) / 2) :=
  line_midpoints_means id 1 [(0, 0), (2, 0), (4, 6)] (by norm_num)

end AnnotoriousTools
